import Mathlib

/-!
Shallow embedding of the mp3tomp4 conversion server (src/index.js, the
revision carrying the single-use response guard `safeRespond`).

The server keeps an in-memory registry `downloads : Map id -> (path, createdAt)`
of finished MP4 files, sweeps it once a minute deleting entries older than
`DOWNLOAD_TTL_MS`, spawns one ffmpeg process per `POST /convert` request with a
watchdog timeout, and serves files via `GET /download/:id`.

Modelling choices:
- the filesystem is the set of existing regular files, as a `List String`;
- the registry is an association list `List (String × DownloadInfo)` mirroring
  the JS `Map` (unique keys, insertion order);
- timestamps are `Int` (milliseconds), so that `now - createdAt` is the JS
  number subtraction;
- JS falsy path arguments (null / undefined / empty string) are `Option String`
  with `some ""` for the empty string;
- the asynchronous callbacks of one conversion job (watchdog timeout, spawn
  error, process close) are a step function over an explicit `JobState`,
  driven by an event trace; `Date.now()` and `Math.random()` outcomes are
  parameters of the model.
-/

/-- A filesystem state: the set of paths that exist as regular files. -/
abbrev FileSys := List String

/-- Registry entry: `downloads.set(id, { path: outPath, createdAt: Date.now() })`. -/
structure DownloadInfo where
  path : String
  createdAt : Int
deriving Repr, DecidableEq

/-- The `downloads` map, as an association list with unique keys. -/
abbrev Registry := List (String × DownloadInfo)

/-- `downloads.get(id)`. -/
def mapGet (m : Registry) (id : String) : Option DownloadInfo :=
  (m.find? (fun e => e.1 == id)).map (fun e => e.2)

/-- `downloads.delete(id)`. -/
def mapDelete (m : Registry) (id : String) : Registry :=
  m.filter (fun e => e.1 ≠ id)

/-- `downloads.set(id, v)`: replace in place if the key is live, else append. -/
def mapSet (m : Registry) (id : String) (v : DownloadInfo) : Registry :=
  if m.any (fun e => e.1 == id) then
    m.map (fun e => if e.1 == id then (id, v) else e)
  else
    m ++ [(id, v)]

/-- `DOWNLOAD_TTL_MS = 10 * 60 * 1000` (10 minutes). -/
def DOWNLOAD_TTL_MS : Int := 10 * 60 * 1000

/-- `CLEANUP_INTERVAL_MS = 60 * 1000` (sweep period, once a minute). -/
def CLEANUP_INTERVAL_MS : Int := 60 * 1000

/-- `fs.unlink(p, () => \x7b\x7d)`: remove the file if present, ignore errors. -/
def unlinkQuiet (fs : FileSys) (p : String) : FileSys :=
  fs.filter (fun q => q ≠ p)

/-- `cleanupFiles(paths)`: for each path, `if (!p) continue; fs.unlink(p, () => \x7b\x7d)`.
JS falsy values (null, undefined, the empty string) are skipped; unlink errors
are ignored, so the function is a total map on filesystem states. -/
def cleanupFiles (fs : FileSys) (paths : List (Option String)) : FileSys :=
  paths.foldl
    (fun acc p =>
      match p with
      | none => acc
      | some q => if q = "" then acc else unlinkQuiet acc q)
    fs

/-- One iteration of the sweep loop body: delete the entry and unlink its file
when `now - info.createdAt > DOWNLOAD_TTL_MS`. -/
def sweepStep (now : Int) (acc : FileSys × Registry) (e : String × DownloadInfo) :
    FileSys × Registry :=
  if now - e.2.createdAt > DOWNLOAD_TTL_MS then
    (unlinkQuiet acc.1 e.2.path, mapDelete acc.2 e.1)
  else acc

/-- The `setInterval` sweep: iterate over the entries of `downloads`, deleting
each expired entry and unlinking its backing file. -/
def sweep (now : Int) (fs : FileSys) (m : Registry) : FileSys × Registry :=
  m.foldl (sweepStep now) (fs, m)

/-- Result of `GET /download/:id`: the HTTP status and, on 200, the path that
is streamed back. -/
structure DlResult where
  status : Int
  body : Option String
deriving Repr, DecidableEq

/-- `GET /download/:id`: look the id up in `downloads`; 404 when absent; stat
the backing file, evicting the entry and returning 404 when it is gone;
otherwise stream the file (200) leaving registry and filesystem untouched. -/
def getDownload (fs : FileSys) (m : Registry) (id : String) :
    DlResult × Registry × FileSys :=
  match mapGet m id with
  | none => (⟨404, none⟩, m, fs)
  | some info =>
    if fs.contains info.path then
      (⟨200, some info.path⟩, m, fs)
    else
      (⟨404, none⟩, mapDelete m id, fs)

/-- The id generated at registration:
`dl-` + `Date.now()` + `-` + `Math.random().toString(16).slice(2)`. -/
def mkDownloadId (t : Int) (rand : String) : String :=
  "dl-" ++ toString t ++ "-" ++ rand

/-- Registration of a finished output file, as done in the close handler:
generate an id from the clock and a random hex suffix, store
the path with `createdAt` = registration time. -/
def register (m : Registry) (filePath : String) (t : Int) (rand : String) :
    String × Registry :=
  let id := mkDownloadId t rand
  (id, mapSet m id ⟨filePath, t⟩)

/-- JSON payloads the `/convert` handler can send. -/
inductive Payload
  | errTimeout
  | errSpawnFailed
  | errFfmpegFailed (code : Int) (signal : Option String)
  | success (url : String) (id : String) (expires_in_seconds : Int)
deriving Repr, DecidableEq

/-- One HTTP response written by the `/convert` handler. -/
structure ConvResponse where
  status : Int
  payload : Payload
deriving Repr, DecidableEq

/-- Per-request parameters of one conversion job: the multer-assigned input
paths, the generated output path, the request's host/proto, and the clock and
random draw observed when the close handler registers the output. -/
structure JobEnv where
  audioPath : String
  imagePath : String
  outPath : String
  host : String
  proto : String
  tNow : Int
  rand : String

/-- The state of one in-flight conversion request, together with the server
state it touches. `unlinkLog` is a ghost field recording, for every unlink the
job performs, whether the ffmpeg process had already fully exited (its close
event had fired) at that moment. -/
structure JobState where
  responded : Bool
  responses : List ConvResponse
  watchdogActive : Bool
  killed : Bool
  procExited : Bool
  fs : FileSys
  downloads : Registry
  unlinkLog : List (String × Bool)
deriving Repr, DecidableEq

/-- `res.headersSent`: a response has been written on this request. -/
def headersSent (s : JobState) : Bool :=
  !s.responses.isEmpty

/-- `safeRespond(status, payload)`: single-use response guard —
`if (responded || res.headersSent) return; responded = true; res.status(status).json(payload)`. -/
def safeRespond (s : JobState) (status : Int) (p : Payload) : JobState :=
  if s.responded || headersSent s then s
  else { s with responded := true, responses := s.responses ++ [⟨status, p⟩] }

/-- `cleanupFiles` as called by the job, additionally recording in the ghost
log whether the process had exited when each unlink was issued. -/
def jobCleanup (s : JobState) (paths : List (Option String)) : JobState :=
  { s with
    fs := cleanupFiles s.fs paths,
    unlinkLog := s.unlinkLog ++
      ((paths.filterMap id).filter (fun p => p ≠ "")).map (fun p => (p, s.procExited)) }

/-- The watchdog callback: kill the process with SIGKILL, delete both inputs
and the output, answer 504 through the guard. -/
def onTimeout (env : JobEnv) (s : JobState) : JobState :=
  let s := { s with killed := true }
  let s := jobCleanup s [some env.audioPath, some env.imagePath, some env.outPath]
  safeRespond s 504 .errTimeout

/-- The `ff.on("error")` callback (spawn failure): clear the watchdog, delete
both inputs and the output, answer 500 through the guard. -/
def onSpawnError (env : JobEnv) (s : JobState) : JobState :=
  let s := { s with watchdogActive := false }
  let s := jobCleanup s [some env.audioPath, some env.imagePath, some env.outPath]
  safeRespond s 500 .errSpawnFailed

/-- The `ff.on("close")` callback: clear the watchdog; if a response was
already sent (watchdog won the race) delete all three files and return;
otherwise delete the inputs, then either report failure (nonzero exit code,
deleting the output) or register the output and answer 200. -/
def onClose (env : JobEnv) (code : Int) (signal : Option String) (s : JobState) :
    JobState :=
  let s := { s with watchdogActive := false, procExited := true }
  if s.responded || headersSent s then
    jobCleanup s [some env.audioPath, some env.imagePath, some env.outPath]
  else
    let s := jobCleanup s [some env.audioPath, some env.imagePath]
    if code ≠ 0 then
      let s := jobCleanup s [some env.outPath]
      safeRespond s 500 (.errFfmpegFailed code signal)
    else
      let idm := register s.downloads env.outPath env.tNow env.rand
      let s := { s with downloads := idm.2 }
      let url := env.proto ++ "://" ++ env.host ++ "/download/" ++ idm.1
      safeRespond s 200 (.success url idm.1 (DOWNLOAD_TTL_MS / 1000))

/-- The asynchronous events that can terminate one conversion job. -/
inductive JobEvent
  | timeout
  | spawnError
  | close (code : Int) (signal : Option String)
deriving Repr, DecidableEq

/-- Dispatch one event to its callback. -/
def jobStep (env : JobEnv) (s : JobState) : JobEvent → JobState
  | .timeout => onTimeout env s
  | .spawnError => onSpawnError env s
  | .close c sig => onClose env c sig s

/-- Run a job through a sequence of events. -/
def runJob (env : JobEnv) (events : List JobEvent) (s : JobState) : JobState :=
  events.foldl (jobStep env) s

/-- Job state right after `spawn` returns: watchdog armed, no response yet,
process running. -/
def initState (fs : FileSys) (m : Registry) : JobState :=
  { responded := false, responses := [], watchdogActive := true,
    killed := false, procExited := false, fs := fs, downloads := m,
    unlinkLog := [] }

/-- The event traces one job can observe in Node: the close event fires at
most once; the spawn-error event fires at most once and never after close;
the watchdog can fire only before close or spawn-error clears it, hence only
first. A trace is complete once it holds at least one event (the watchdog
guarantees some event fires). -/
inductive ValidTrace : List JobEvent → Prop
  | closeOnly (c : Int) (sig : Option String) : ValidTrace [.close c sig]
  | errorOnly : ValidTrace [.spawnError]
  | timeoutOnly : ValidTrace [.timeout]
  | timeoutClose (c : Int) (sig : Option String) :
      ValidTrace [.timeout, .close c sig]
  | errorClose (c : Int) (sig : Option String) :
      ValidTrace [.spawnError, .close c sig]

/-- The response the handler sends for whichever terminal event fires first:
504 for the watchdog, 500 for a spawn failure, and for natural completion
either the 500 failure report or the 200 success report. -/
def firstOutcome (env : JobEnv) : JobEvent → ConvResponse
  | .timeout => ⟨504, .errTimeout⟩
  | .spawnError => ⟨500, .errSpawnFailed⟩
  | .close c sig =>
    if c ≠ 0 then ⟨500, .errFfmpegFailed c sig⟩
    else
      ⟨200, .success
        (env.proto ++ "://" ++ env.host ++ "/download/" ++ mkDownloadId env.tNow env.rand)
        (mkDownloadId env.tNow env.rand) (DOWNLOAD_TTL_MS / 1000)⟩

/-- A concrete job environment used by the concrete counterexamples. -/
def cexEnv : JobEnv :=
  { audioPath := "a.mp3", imagePath := "i.jpg", outPath := "out.mp4",
    host := "h.example", proto := "https", tNow := 1000, rand := "ab3f" }

/-! ### Helper lemmas -/

theorem mem_unlinkQuiet {fs : FileSys} {p q : String} :
    q ∈ unlinkQuiet fs p ↔ q ∈ fs ∧ q ≠ p := by
  simp [unlinkQuiet]

theorem mem_cleanupFiles (ps : List (Option String)) (fs : FileSys) (q : String) :
    q ∈ cleanupFiles fs ps ↔ q ∈ fs ∧ (some q ∈ ps → q = "") := by
  induction ps generalizing fs with
  | nil => simp [cleanupFiles]
  | cons p ps ih =>
    cases p with
    | none =>
      have hstep : cleanupFiles fs (none :: ps) = cleanupFiles fs ps := rfl
      rw [hstep, ih]
      simp
    | some r =>
      have hstep : cleanupFiles fs (some r :: ps) =
          cleanupFiles (if r = "" then fs else unlinkQuiet fs r) ps := rfl
      rw [hstep]
      by_cases hr : r = ""
      · subst hr
        rw [if_pos rfl, ih]
        simp only [List.mem_cons, Option.some.injEq]
        constructor
        · rintro ⟨hq, himp⟩
          exact ⟨hq, fun h => h.elim (fun h' => h') himp⟩
        · rintro ⟨hq, himp⟩
          exact ⟨hq, fun h => himp (Or.inr h)⟩
      · rw [if_neg hr, ih]
        simp only [List.mem_cons, Option.some.injEq, mem_unlinkQuiet]
        constructor
        · rintro ⟨⟨hq, hqr⟩, himp⟩
          exact ⟨hq, fun h => h.elim (fun h' => absurd h' hqr) himp⟩
        · rintro ⟨hq, himp⟩
          refine ⟨⟨hq, ?_⟩, fun h => himp (Or.inr h)⟩
          intro hqr
          exact hr (by rw [← hqr]; exact himp (Or.inl hqr))

theorem key_unique {m : Registry} (h : (m.map Prod.fst).Nodup)
    {e₁ e₂ : String × DownloadInfo} (h₁ : e₁ ∈ m) (h₂ : e₂ ∈ m)
    (hk : e₁.1 = e₂.1) : e₁ = e₂ := by
  induction m with
  | nil => cases h₁
  | cons a l ih =>
    rw [List.map_cons, List.nodup_cons] at h
    rcases List.mem_cons.mp h₁ with rfl | h₁'
    · rcases List.mem_cons.mp h₂ with rfl | h₂'
      · rfl
      · exact absurd (hk ▸ List.mem_map_of_mem Prod.fst h₂') h.1
    · rcases List.mem_cons.mp h₂ with rfl | h₂'
      · exact absurd (hk ▸ List.mem_map_of_mem Prod.fst h₁') h.1
      · exact ih h.2 h₁' h₂'

theorem mapGet_some_mem {m : Registry} {id : String} {info : DownloadInfo}
    (h : mapGet m id = some info) : (id, info) ∈ m := by
  unfold mapGet at h
  cases hfind : m.find? (fun e => e.1 == id) with
  | none => rw [hfind] at h; cases h
  | some e =>
    rw [hfind] at h
    have hmem := List.mem_of_find?_eq_some hfind
    have hpred := List.find?_some hfind
    have hkey : e.1 = id := by simpa using hpred
    have hval : e.2 = info := by simpa using h
    have : e = (id, info) := by
      cases e
      simp_all
    exact this ▸ hmem

theorem mapGet_eq_none {m : Registry} {id : String} :
    mapGet m id = none ↔ ∀ e ∈ m, e.1 ≠ id := by
  unfold mapGet
  simp [List.find?_eq_none]

theorem mapGet_mapSet_self (m : Registry) (id : String) (v : DownloadInfo) :
    mapGet (mapSet m id v) id = some v := by
  unfold mapSet
  by_cases h : m.any (fun e => e.1 == id)
  · rw [if_pos h]
    induction m with
    | nil => simp at h
    | cons a l ih =>
      by_cases ha : a.1 == id
      · simp only [List.map_cons, if_pos ha]
        unfold mapGet
        simp [List.find?_cons]
      · have hl : l.any (fun e => e.1 == id) := by
          simp only [List.any_cons, ha, Bool.false_or] at h
          exact h
        have := ih hl
        simp only [List.map_cons, if_neg ha]
        unfold mapGet at this ⊢
        rw [List.find?_cons_of_neg _ (by simpa using ha)]
        exact this
  · rw [if_neg h]
    have hnone : m.find? (fun e => e.1 == id) = none := by
      rw [List.find?_eq_none]
      intro x hx
      intro hpx
      exact h (List.any_eq_true.mpr ⟨x, hx, hpx⟩)
    unfold mapGet
    rw [List.find?_append, hnone]
    simp

/-- Whether the sweep considers an entry expired at time `now`. -/
def expiredB (now : Int) (e : String × DownloadInfo) : Bool :=
  decide (now - e.2.createdAt > DOWNLOAD_TTL_MS)

theorem sweep_fold_fs (now : Int) (l : List (String × DownloadInfo))
    (fs : FileSys) (r : Registry) :
    (l.foldl (sweepStep now) (fs, r)).1 =
      fs.filter (fun q => !(l.any (fun x => expiredB now x && x.2.path == q))) := by
  induction l generalizing fs r with
  | nil => simp
  | cons x l ih =>
    rw [List.foldl_cons]
    by_cases hx : now - x.2.createdAt > DOWNLOAD_TTL_MS
    · rw [show sweepStep now (fs, r) x = (unlinkQuiet fs x.2.path, mapDelete r x.1) from by
        simp [sweepStep, hx]]
      rw [ih]
      unfold unlinkQuiet
      rw [List.filter_filter]
      apply List.filter_congr
      intro q _
      have hex : expiredB now x = true := by simp [expiredB, hx]
      simp only [List.any_cons, hex, Bool.true_and]
      by_cases hq : x.2.path = q
      · simp [hq]
      · simp [hq, Ne.symm hq]
    · rw [show sweepStep now (fs, r) x = (fs, r) from by simp [sweepStep, hx]]
      rw [ih]
      apply List.filter_congr
      intro q _
      have hex : expiredB now x = false := by simp [expiredB, hx]
      simp [List.any_cons, hex]

theorem sweep_fold_reg (now : Int) (l : List (String × DownloadInfo))
    (fs : FileSys) (r : Registry) :
    (l.foldl (sweepStep now) (fs, r)).2 =
      r.filter (fun e => !(l.any (fun x => expiredB now x && x.1 == e.1))) := by
  induction l generalizing fs r with
  | nil => simp
  | cons x l ih =>
    rw [List.foldl_cons]
    by_cases hx : now - x.2.createdAt > DOWNLOAD_TTL_MS
    · rw [show sweepStep now (fs, r) x = (unlinkQuiet fs x.2.path, mapDelete r x.1) from by
        simp [sweepStep, hx]]
      rw [ih]
      unfold mapDelete
      rw [List.filter_filter]
      apply List.filter_congr
      intro e _
      have hex : expiredB now x = true := by simp [expiredB, hx]
      simp only [List.any_cons, hex, Bool.true_and]
      by_cases he : x.1 = e.1
      · simp [he]
      · simp [he, Ne.symm he]
    · rw [show sweepStep now (fs, r) x = (fs, r) from by simp [sweepStep, hx]]
      rw [ih]
      apply List.filter_congr
      intro e _
      have hex : expiredB now x = false := by simp [expiredB, hx]
      simp [List.any_cons, hex]

/-- `mapSet` preserves uniqueness of keys. -/
theorem mapSet_nodupKeys {m : Registry} (h : (m.map Prod.fst).Nodup)
    (id : String) (v : DownloadInfo) :
    ((mapSet m id v).map Prod.fst).Nodup := by
  unfold mapSet
  by_cases hany : m.any (fun e => e.1 == id)
  · rw [if_pos hany]
    have : (m.map (fun e => if e.1 == id then (id, v) else e)).map Prod.fst
        = m.map Prod.fst := by
      rw [List.map_map]
      apply List.map_congr_left
      intro e _
      by_cases he : e.1 = id
      · simp [Function.comp_apply, he]
      · simp [Function.comp_apply, he]
    rw [this]
    exact h
  · rw [if_neg hany]
    rw [List.map_append]
    simp only [List.map_cons, List.map_nil]
    rw [List.nodup_append]
    refine ⟨h, List.nodup_singleton id, ?_⟩
    intro a ha
    simp only [List.mem_singleton]
    intro hcontr
    subst hcontr
    rcases List.mem_map.mp ha with ⟨e, he, hke⟩
    exact hany (List.any_eq_true.mpr ⟨e, he, by simp [hke]⟩)

/-! ### Claim theorems -/

/-- C10: `cleanupFiles` is total and silent for every input list: a path is
gone from the result exactly when it was listed as a nonempty path, every
null/undefined/empty path is skipped, unlink errors are swallowed (the
function is a total map on filesystem states, so it cannot throw or divert
the caller), and calling it on an already-deleted path is a no-op. -/
theorem cleanupFiles_total_and_silent (fs : FileSys) (ps : List (Option String)) :
    (∀ q, q ∈ cleanupFiles fs ps ↔ q ∈ fs ∧ (some q ∈ ps → q = ""))
    ∧ (∀ rest : List (Option String),
        cleanupFiles fs (none :: rest) = cleanupFiles fs rest)
    ∧ (∀ rest : List (Option String),
        cleanupFiles fs (some "" :: rest) = cleanupFiles fs rest)
    ∧ (∀ p : String, p ∉ fs → cleanupFiles fs [some p] = fs) := by
  refine ⟨fun q => mem_cleanupFiles ps fs q, fun rest => rfl, fun rest => rfl, ?_⟩
  intro p hp
  by_cases hps : p = ""
  · subst hps
    rfl
  · have hstep : cleanupFiles fs [some p] = unlinkQuiet fs p := by
      simp [cleanupFiles, hps]
    rw [hstep]
    unfold unlinkQuiet
    apply List.filter_eq_self.mpr
    intro q hq
    simp only [ne_eq, decide_eq_true_eq]
    intro hqp
    exact hp (hqp ▸ hq)

theorem cleanupFiles_total_and_silent_witness :
    cleanupFiles ["a.mp3", "b.mp4"] [some "zzz.mp4"] = ["a.mp3", "b.mp4"] :=
  (cleanupFiles_total_and_silent ["a.mp3", "b.mp4"] [some "zzz.mp4"]).2.2.2
    "zzz.mp4" (by decide)

/-- C5: `sweep now` removes exactly the entries whose age strictly exceeds
the TTL, deletes each removed entry's backing file, and keeps every entry
whose age has not yet exceeded the TTL, touching no other file. -/
theorem sweep_removes_exactly_expired (now : Int) (fs : FileSys) (m : Registry)
    (hkeys : (m.map Prod.fst).Nodup) :
    (∀ id info, (id, info) ∈ (sweep now fs m).2 ↔
        (id, info) ∈ m ∧ now - info.createdAt ≤ DOWNLOAD_TTL_MS)
    ∧ (∀ e ∈ m, now - e.2.createdAt > DOWNLOAD_TTL_MS →
        e.2.path ∉ (sweep now fs m).1)
    ∧ (∀ q ∈ fs, (∀ e ∈ m, now - e.2.createdAt > DOWNLOAD_TTL_MS → e.2.path ≠ q) →
        q ∈ (sweep now fs m).1) := by
  have hreg : (sweep now fs m).2 =
      m.filter (fun e => !(m.any (fun x => expiredB now x && x.1 == e.1))) :=
    sweep_fold_reg now m fs m
  have hfs : (sweep now fs m).1 =
      fs.filter (fun q => !(m.any (fun x => expiredB now x && x.2.path == q))) :=
    sweep_fold_fs now m fs m
  refine ⟨?_, ?_, ?_⟩
  · intro id info
    rw [hreg, List.mem_filter]
    constructor
    · rintro ⟨hm, hpred⟩
      refine ⟨hm, ?_⟩
      by_contra hgt
      push_neg at hgt
      have hany : m.any (fun x => expiredB now x && x.1 == id) = true :=
        List.any_eq_true.mpr ⟨(id, info), hm, by simp [expiredB, hgt]⟩
      rw [hany] at hpred
      cases hpred
    · rintro ⟨hm, hle⟩
      refine ⟨hm, ?_⟩
      have hany : m.any (fun x => expiredB now x && x.1 == id) = false := by
        rw [List.any_eq_false]
        intro x hx
        simp only [Bool.and_eq_true, beq_iff_eq, not_and, expiredB, decide_eq_true_eq]
        intro hexp hkey
        have hx' : x = (id, info) := key_unique hkeys hx hm hkey
        rw [hx'] at hexp
        exact absurd hexp (not_lt.mpr hle)
      rw [hany]
      rfl
  · intro e he hexp
    rw [hfs, List.mem_filter]
    rintro ⟨-, hpred⟩
    have hany : m.any (fun x => expiredB now x && x.2.path == e.2.path) = true :=
      List.any_eq_true.mpr ⟨e, he, by simp [expiredB, hexp]⟩
    rw [hany] at hpred
    cases hpred
  · intro q hq hnone
    rw [hfs, List.mem_filter]
    refine ⟨hq, ?_⟩
    have hany : m.any (fun x => expiredB now x && x.2.path == q) = false := by
      rw [List.any_eq_false]
      intro x hx
      simp only [Bool.and_eq_true, beq_iff_eq, not_and, expiredB, decide_eq_true_eq]
      intro hexp
      exact hnone x hx hexp
    rw [hany]
    rfl

theorem sweep_removes_exactly_expired_witness :
    ("id2", ({ path := "y.mp4", createdAt := 100000 } : DownloadInfo)) ∈
      (sweep 660001 ["x.mp4", "y.mp4"]
        [("id1", { path := "x.mp4", createdAt := 0 }),
         ("id2", { path := "y.mp4", createdAt := 100000 })]).2 :=
  ((sweep_removes_exactly_expired 660001 ["x.mp4", "y.mp4"]
      [("id1", { path := "x.mp4", createdAt := 0 }),
       ("id2", { path := "y.mp4", createdAt := 100000 })] (by decide)).1
    "id2" { path := "y.mp4", createdAt := 100000 }).mpr ⟨by decide, by decide⟩

/-- C6: `GET /download/:id` returns the stored path exactly when the entry
exists and its backing file still exists; otherwise it evicts the entry (when
present) and answers 404; the status is always 200 or 404, never a 5xx. -/
theorem getDownload_characterization (fs : FileSys) (m : Registry) (id : String) :
    (∀ info, mapGet m id = some info → info.path ∈ fs →
        getDownload fs m id = (⟨200, some info.path⟩, m, fs))
    ∧ (mapGet m id = none → getDownload fs m id = (⟨404, none⟩, m, fs))
    ∧ (∀ info, mapGet m id = some info → info.path ∉ fs →
        getDownload fs m id = (⟨404, none⟩, mapDelete m id, fs))
    ∧ ((getDownload fs m id).1.status = 200 ∨ (getDownload fs m id).1.status = 404) := by
  refine ⟨?_, ?_, ?_, ?_⟩
  · intro info hget hmem
    simp [getDownload, hget, hmem]
  · intro hget
    simp [getDownload, hget]
  · intro info hget hmem
    simp [getDownload, hget, hmem]
  · cases hget : mapGet m id with
    | none =>
      right
      simp [getDownload, hget]
    | some info =>
      by_cases hmem : info.path ∈ fs
      · left
        simp [getDownload, hget, hmem]
      · right
        simp [getDownload, hget, hmem]

theorem getDownload_characterization_witness :
    getDownload ["o.mp4"] [("dl1", { path := "o.mp4", createdAt := 5 })] "dl1"
      = (⟨200, some "o.mp4"⟩, [("dl1", { path := "o.mp4", createdAt := 5 })], ["o.mp4"]) :=
  (getDownload_characterization ["o.mp4"]
      [("dl1", { path := "o.mp4", createdAt := 5 })] "dl1").1
    { path := "o.mp4", createdAt := 5 } (by decide) (by decide)

/-- C8: a successful download is side-effect free: the handler leaves the
registry and the filesystem exactly as they were, and the same id resolves
again to the same file on a repeated request (downloads are not one-shot). -/
theorem getDownload_not_one_shot (fs : FileSys) (m : Registry) (id : String)
    (info : DownloadInfo) (hget : mapGet m id = some info) (hfile : info.path ∈ fs) :
    getDownload fs m id = (⟨200, some info.path⟩, m, fs)
    ∧ getDownload (getDownload fs m id).2.2 (getDownload fs m id).2.1 id
        = (⟨200, some info.path⟩, m, fs) := by
  have h1 : getDownload fs m id = (⟨200, some info.path⟩, m, fs) := by
    simp [getDownload, hget, hfile]
  refine ⟨h1, ?_⟩
  rw [h1]
  exact h1

theorem getDownload_not_one_shot_witness :
    getDownload ["o.mp4"] [("dl1", { path := "o.mp4", createdAt := 5 })] "dl1"
        = (⟨200, some "o.mp4"⟩, [("dl1", { path := "o.mp4", createdAt := 5 })], ["o.mp4"])
    ∧ getDownload
        (getDownload ["o.mp4"] [("dl1", { path := "o.mp4", createdAt := 5 })] "dl1").2.2
        (getDownload ["o.mp4"] [("dl1", { path := "o.mp4", createdAt := 5 })] "dl1").2.1 "dl1"
        = (⟨200, some "o.mp4"⟩, [("dl1", { path := "o.mp4", createdAt := 5 })], ["o.mp4"]) :=
  getDownload_not_one_shot ["o.mp4"] [("dl1", { path := "o.mp4", createdAt := 5 })] "dl1"
    { path := "o.mp4", createdAt := 5 } (by decide) (by decide)

/-- C2 counterexample: an entry registered at time 0 is looked up at a time
beyond the TTL (600001 ms > DOWNLOAD_TTL_MS) while its backing file is intact.
The last on-schedule sweep (at 600000 ms) did not remove it, because its age
did not strictly exceed the TTL then, and the lookup itself performs no TTL
check, so the lookup succeeds with 200 instead of reporting NotFound. -/
theorem lookup_past_ttl_cex :
    (600001 : Int) - 0 > DOWNLOAD_TTL_MS
    ∧ (sweep 600000 ["out.mp4"] [("dl1", { path := "out.mp4", createdAt := 0 })]).2
        = [("dl1", { path := "out.mp4", createdAt := 0 })]
    ∧ (getDownload ["out.mp4"] [("dl1", { path := "out.mp4", createdAt := 0 })] "dl1").1
        = ⟨200, some "out.mp4"⟩ := by
  refine ⟨by decide, by decide, by decide⟩

/-- C2 amended: an entry is reachable by lookup only while its backing file
exists — a lookup after the file is gone evicts and reports NotFound, as does
a lookup of an unknown id — and TTL expiry is enforced by the sweep, not by
the lookup: after any sweep run at a time more than TTL past the entry's
createdAt, the entry is unreachable. Between sweeps, an entry older than TTL
whose file is intact can still be served. -/
theorem lookup_reachability_bounds (fs : FileSys) (m : Registry) (id : String)
    (hkeys : (m.map Prod.fst).Nodup) :
    (∀ info, mapGet m id = some info → info.path ∉ fs →
        (getDownload fs m id).1 = ⟨404, none⟩)
    ∧ (mapGet m id = none → (getDownload fs m id).1 = ⟨404, none⟩)
    ∧ (∀ now info, mapGet m id = some info → now - info.createdAt > DOWNLOAD_TTL_MS →
        mapGet (sweep now fs m).2 id = none) := by
  refine ⟨?_, ?_, ?_⟩
  · intro info hget hmem
    simp [getDownload, hget, hmem]
  · intro hget
    simp [getDownload, hget]
  · intro now info hget hexp
    have hmem : (id, info) ∈ m := mapGet_some_mem hget
    have hreg : (sweep now fs m).2 =
        m.filter (fun e => !(m.any (fun x => expiredB now x && x.1 == e.1))) :=
      sweep_fold_reg now m fs m
    rw [hreg, mapGet_eq_none]
    intro e he
    rcases List.mem_filter.mp he with ⟨hem, hpred⟩
    intro hkey
    have he' : e = (id, info) := key_unique hkeys hem hmem hkey
    have hany : m.any (fun x => expiredB now x && x.1 == e.1) = true :=
      List.any_eq_true.mpr ⟨e, hem, by simp [expiredB, he', hexp]⟩
    rw [hany] at hpred
    cases hpred

theorem lookup_reachability_bounds_witness :
    mapGet (sweep 660001 ["out.mp4"] [("dl1", { path := "out.mp4", createdAt := 0 })]).2
      "dl1" = none :=
  (lookup_reachability_bounds ["out.mp4"]
      [("dl1", { path := "out.mp4", createdAt := 0 })] "dl1" (by decide)).2.2
    660001 { path := "out.mp4", createdAt := 0 } (by decide) (by decide)

/-- C7 counterexample: two registrations that observe the same millisecond
tick and the same random draw produce the same id — the second overwrites the
first, whose entry is lost from the registry. -/
theorem register_collision_cex :
    (register ([] : Registry) "a.mp4" 1000 "ffff").1
        = (register (register ([] : Registry) "a.mp4" 1000 "ffff").2 "b.mp4" 1000 "ffff").1
    ∧ (register (register ([] : Registry) "a.mp4" 1000 "ffff").2 "b.mp4" 1000 "ffff").2
        = [("dl-1000-ffff", { path := "b.mp4", createdAt := 1000 })] := by
  refine ⟨by decide, by decide⟩

/-- C7 amended: two registrations yield distinct ids provided their random
suffixes differ (in particular inside the same timestamp tick); collision
probability is negligible but not zero, as the spec itself concedes. Each
registration stores the given file path with createdAt set to the
registration time, retrievable under the returned id. -/
theorem register_distinct_ids (m : Registry) (p1 p2 : String) (t : Int)
    (r1 r2 : String) (hr : r1 ≠ r2) :
    (register m p1 t r1).1 ≠ (register m p2 t r2).1
    ∧ mapGet (register m p1 t r1).2 (register m p1 t r1).1
        = some { path := p1, createdAt := t } := by
  constructor
  · intro h
    apply hr
    have hdata := congrArg String.data h
    simp only [register, mkDownloadId, String.data_append] at hdata
    have := List.append_cancel_left hdata
    cases r1
    cases r2
    exact congrArg String.mk this
  · exact mapGet_mapSet_self m (mkDownloadId t r1) { path := p1, createdAt := t }

theorem register_distinct_ids_witness :
    (register ([] : Registry) "a.mp4" 1000 "00aa").1
      ≠ (register ([] : Registry) "b.mp4" 1000 "00ab").1 :=
  (register_distinct_ids [] "a.mp4" "b.mp4" 1000 "00aa" "00ab" (by decide)).1

/-- C1: whichever of natural completion, spawn failure and watchdog timeout
fires first determines the single response: over every valid event trace the
handler writes exactly one response, the one for the first event, and a later
event produces no second response. -/
theorem single_response_first_outcome (env : JobEnv) (fs : FileSys) (m : Registry)
    (t : List JobEvent) (ht : ValidTrace t) (e0 : JobEvent)
    (hhead : t.head? = some e0) :
    (runJob env t (initState fs m)).responses = [firstOutcome env e0] := by
  cases ht with
  | closeOnly c sig =>
    have he : e0 = .close c sig := by simpa using hhead.symm
    subst he
    by_cases hc : c = 0
    · subst hc
      simp [runJob, jobStep, onClose, initState, headersSent, safeRespond, jobCleanup,
        register, firstOutcome]
    · simp [runJob, jobStep, onClose, initState, headersSent, safeRespond, jobCleanup,
      firstOutcome, hc]
  | errorOnly =>
    have he : e0 = .spawnError := by simpa using hhead.symm
    subst he
    simp [runJob, jobStep, onSpawnError, initState, headersSent, safeRespond, jobCleanup,
      firstOutcome]
  | timeoutOnly =>
    have he : e0 = .timeout := by simpa using hhead.symm
    subst he
    simp [runJob, jobStep, onTimeout, initState, headersSent, safeRespond, jobCleanup,
      firstOutcome]
  | timeoutClose c sig =>
    have he : e0 = .timeout := by simpa using hhead.symm
    subst he
    simp [runJob, jobStep, onTimeout, onClose, initState, headersSent, safeRespond,
      jobCleanup, firstOutcome]
  | errorClose c sig =>
    have he : e0 = .spawnError := by simpa using hhead.symm
    subst he
    simp [runJob, jobStep, onSpawnError, onClose, initState, headersSent, safeRespond,
      jobCleanup, firstOutcome]

theorem single_response_first_outcome_witness :
    (runJob cexEnv [.timeout, .close 0 none]
        (initState ["a.mp3", "i.jpg", "out.mp4"] [])).responses
      = [firstOutcome cexEnv .timeout] :=
  single_response_first_outcome cexEnv ["a.mp3", "i.jpg", "out.mp4"] []
    [.timeout, .close 0 none] (ValidTrace.timeoutClose 0 none) .timeout rfl

/-- C3 counterexample: when the watchdog fires, the handler sends SIGKILL and
deletes the two inputs and the output in the same callback, before the close
event has confirmed the exit: the ghost deletion log records the unlink of the
audio input while the process is killed but not yet exited. -/
theorem cleanup_before_exit_cex :
    ("a.mp3", false) ∈
      (runJob cexEnv [.timeout] (initState ["a.mp3", "i.jpg", "out.mp4"] [])).unlinkLog
    ∧ (runJob cexEnv [.timeout] (initState ["a.mp3", "i.jpg", "out.mp4"] [])).killed = true
    ∧ (runJob cexEnv [.timeout]
        (initState ["a.mp3", "i.jpg", "out.mp4"] [])).procExited = false := by
  refine ⟨by decide, by decide, by decide⟩

/-- C3 amended: on the natural-completion path (close event, both success and
failure exits) every file deletion — inputs, and the output on the failure
branch — happens after the process has fully exited; but on the watchdog path
every deletion happens right after the kill signal is sent, before the
confirmed exit. -/
theorem cleanup_after_exit_on_close (env : JobEnv) (fs : FileSys) (m : Registry)
    (c : Int) (sig : Option String) :
    ((runJob env [.close c sig] (initState fs m)).unlinkLog.all (fun e => e.2)) = true
    ∧ ((runJob env [.timeout] (initState fs m)).unlinkLog.all (fun e => !e.2)) = true := by
  constructor
  · by_cases hc : c = 0
    · subst hc
      simp [runJob, jobStep, onClose, initState, headersSent, safeRespond, jobCleanup,
        register]
    · simp [runJob, jobStep, onClose, initState, headersSent, safeRespond, jobCleanup, hc]
  · simp [runJob, jobStep, onTimeout, initState, headersSent, safeRespond, jobCleanup]

/-- Responses are only written through `safeRespond`, which either leaves the
list alone or appends the one response it was given. -/
theorem mem_safeRespond_responses {s : JobState} {st : Int} {p : Payload}
    {r : ConvResponse} (hr : r ∈ (safeRespond s st p).responses) :
    r ∈ s.responses ∨ r = ⟨st, p⟩ := by
  unfold safeRespond at hr
  split at hr
  · exact Or.inl hr
  · rcases List.mem_append.mp hr with h | h
    · exact Or.inl h
    · exact Or.inr (List.mem_singleton.mp h)

/-- `jobCleanup` touches only the filesystem and the ghost log. -/
theorem jobCleanup_responses (s : JobState) (ps : List (Option String)) :
    (jobCleanup s ps).responses = s.responses := rfl

theorem onTimeout_responses {env : JobEnv} {s : JobState} {r : ConvResponse}
    (hr : r ∈ (onTimeout env s).responses) :
    r ∈ s.responses ∨ r = ⟨504, .errTimeout⟩ := by
  unfold onTimeout at hr
  rcases mem_safeRespond_responses hr with h | h
  · rw [jobCleanup_responses] at h
    exact Or.inl h
  · exact Or.inr h

theorem onSpawnError_responses {env : JobEnv} {s : JobState} {r : ConvResponse}
    (hr : r ∈ (onSpawnError env s).responses) :
    r ∈ s.responses ∨ r = ⟨500, .errSpawnFailed⟩ := by
  unfold onSpawnError at hr
  rcases mem_safeRespond_responses hr with h | h
  · rw [jobCleanup_responses] at h
    exact Or.inl h
  · exact Or.inr h

theorem onClose_responses {env : JobEnv} {s : JobState} {c : Int}
    {sig : Option String} {r : ConvResponse}
    (hr : r ∈ (onClose env c sig s).responses) :
    r ∈ s.responses
    ∨ r = ⟨500, .errFfmpegFailed c sig⟩
    ∨ (∃ url id, r = ⟨200, .success url id (DOWNLOAD_TTL_MS / 1000)⟩) := by
  unfold onClose at hr
  dsimp only at hr
  split at hr
  · rw [jobCleanup_responses] at hr
    exact Or.inl hr
  · split at hr
    · rcases mem_safeRespond_responses hr with h | h
      · rw [jobCleanup_responses, jobCleanup_responses] at h
        exact Or.inl h
      · exact Or.inr (Or.inl h)
    · rcases mem_safeRespond_responses hr with h | h
      · rw [jobCleanup_responses] at h
        exact Or.inl h
      · exact Or.inr (Or.inr ⟨_, _, h⟩)

/-- Every response a single event can add is one of the literal response
shapes of the handler; in particular any success response carries
`DOWNLOAD_TTL_MS / 1000` as its expiry field. -/
theorem jobStep_responses {env : JobEnv} {s : JobState} {ev : JobEvent}
    {r : ConvResponse} (hr : r ∈ (jobStep env s ev).responses) :
    r ∈ s.responses
    ∨ r = ⟨504, .errTimeout⟩
    ∨ r = ⟨500, .errSpawnFailed⟩
    ∨ (∃ c sig, r = ⟨500, .errFfmpegFailed c sig⟩)
    ∨ (∃ url id, r = ⟨200, .success url id (DOWNLOAD_TTL_MS / 1000)⟩) := by
  cases ev with
  | timeout =>
    rcases onTimeout_responses hr with h | h
    · exact Or.inl h
    · exact Or.inr (Or.inl h)
  | spawnError =>
    rcases onSpawnError_responses hr with h | h
    · exact Or.inl h
    · exact Or.inr (Or.inr (Or.inl h))
  | close c sig =>
    rcases onClose_responses hr with h | h | h
    · exact Or.inl h
    · exact Or.inr (Or.inr (Or.inr (Or.inl ⟨c, sig, h⟩)))
    · exact Or.inr (Or.inr (Or.inr (Or.inr h)))

/-- C9: the `expires_in_seconds` field of every success response of the
convert handler is the constant full TTL in seconds,
`DOWNLOAD_TTL_MS / 1000 = 600`, never a remaining-lifetime value: it is
independent of the registry, the request and elapsed time. -/
theorem expires_in_seconds_constant (env : JobEnv) (t : List JobEvent)
    (fs : FileSys) (m : Registry) :
    (∀ r ∈ (runJob env t (initState fs m)).responses,
        ∀ url id e, r.payload = .success url id e → e = 600)
    ∧ DOWNLOAD_TTL_MS / 1000 = 600 := by
  constructor
  · have main : ∀ (t : List JobEvent) (s : JobState),
        (∀ r ∈ s.responses, ∀ url id e, r.payload = .success url id e → e = 600) →
        ∀ r ∈ (runJob env t s).responses,
          ∀ url id e, r.payload = .success url id e → e = 600 := by
      intro t
      induction t with
      | nil => intro s hs; exact hs
      | cons ev t ih =>
        intro s hs
        have hstep : runJob env (ev :: t) s = runJob env t (jobStep env s ev) := rfl
        rw [hstep]
        apply ih
        intro r hr url id e hpay
        rcases jobStep_responses hr with h | h | h | ⟨c, sig, h⟩ | ⟨url2, id2, h⟩
        · exact hs r h url id e hpay
        · rw [h] at hpay; cases hpay
        · rw [h] at hpay; cases hpay
        · rw [h] at hpay; cases hpay
        · rw [h] at hpay
          cases hpay
          decide
    exact main t (initState fs m) (by intro r hr; cases hr)
  · decide

theorem expires_in_seconds_constant_witness :
    (⟨200, .success "https://h.example/download/dl-1000-ab3f" "dl-1000-ab3f" 600⟩ :
        ConvResponse)
      ∈ (runJob cexEnv [.close 0 none] (initState ["out.mp4"] [])).responses
    ∧ (600 : Int) = 600 :=
  ⟨by decide,
   (expires_in_seconds_constant cexEnv [.close 0 none] ["out.mp4"] []).1
     ⟨200, .success "https://h.example/download/dl-1000-ab3f" "dl-1000-ab3f" 600⟩
     (by decide) "https://h.example/download/dl-1000-ab3f" "dl-1000-ab3f" 600 rfl⟩

/-- A path absent from the filesystem stays absent through `cleanupFiles`. -/
theorem not_mem_cleanupFiles_of_not_mem {fs : FileSys} {ps : List (Option String)}
    {q : String} (h : q ∉ fs) : q ∉ cleanupFiles fs ps :=
  fun hq => h ((mem_cleanupFiles ps fs q).mp hq).1

/-- A nonempty path listed for cleanup is gone afterwards. -/
theorem not_mem_cleanupFiles_listed {fs : FileSys} {ps : List (Option String)}
    {q : String} (hq : q ≠ "") (hin : some q ∈ ps) : q ∉ cleanupFiles fs ps :=
  fun h => hq (((mem_cleanupFiles ps fs q).mp h).2 hin)

/-- A path not listed for cleanup is untouched. -/
theorem mem_cleanupFiles_unlisted {fs : FileSys} {ps : List (Option String)}
    {q : String} (hnotin : some q ∉ ps) : q ∈ cleanupFiles fs ps ↔ q ∈ fs :=
  Iff.trans (mem_cleanupFiles ps fs q)
    ⟨fun h => h.1, fun h => ⟨h, fun hin => absurd hin hnotin⟩⟩

/-- C4: for every terminal outcome both input files are deleted; on a
timeout, spawn-failure or nonzero-exit outcome the output file is deleted
too; on a success outcome the output file is untouched, registered under the
generated id with `createdAt` = registration time, and survives every sweep
run at most TTL after registration. -/
theorem terminal_outcome_file_state (env : JobEnv) (fs : FileSys) (m : Registry)
    (t : List JobEvent) (ht : ValidTrace t)
    (hkeys : (m.map Prod.fst).Nodup)
    (ha : env.audioPath ≠ "") (hi : env.imagePath ≠ "") (ho : env.outPath ≠ "")
    (hoa : env.outPath ≠ env.audioPath) (hoi : env.outPath ≠ env.imagePath) :
    env.audioPath ∉ (runJob env t (initState fs m)).fs
    ∧ env.imagePath ∉ (runJob env t (initState fs m)).fs
    ∧ ((t.head? = some .timeout ∨ t.head? = some .spawnError ∨
        (∃ c sig, t.head? = some (.close c sig) ∧ c ≠ 0)) →
        env.outPath ∉ (runJob env t (initState fs m)).fs)
    ∧ (∀ sig, t = [.close 0 sig] →
        (env.outPath ∈ (runJob env t (initState fs m)).fs ↔ env.outPath ∈ fs)
        ∧ mapGet (runJob env t (initState fs m)).downloads (mkDownloadId env.tNow env.rand)
            = some { path := env.outPath, createdAt := env.tNow }
        ∧ (∀ now, now - env.tNow ≤ DOWNLOAD_TTL_MS →
            (mkDownloadId env.tNow env.rand,
              ({ path := env.outPath, createdAt := env.tNow } : DownloadInfo))
              ∈ (sweep now (runJob env t (initState fs m)).fs
                  (runJob env t (initState fs m)).downloads).2)) := by
  cases ht with
  | closeOnly c sig =>
    by_cases hc : c = 0
    · subst hc
      have hfs : (runJob env [.close 0 sig] (initState fs m)).fs
          = cleanupFiles fs [some env.audioPath, some env.imagePath] := by
        simp [runJob, jobStep, onClose, initState, headersSent, safeRespond, jobCleanup,
          register]
      have hdl : (runJob env [.close 0 sig] (initState fs m)).downloads
          = mapSet m (mkDownloadId env.tNow env.rand)
              { path := env.outPath, createdAt := env.tNow } := by
        simp [runJob, jobStep, onClose, initState, headersSent, safeRespond, jobCleanup,
          register]
      refine ⟨?_, ?_, ?_, ?_⟩
      · rw [hfs]
        exact not_mem_cleanupFiles_listed ha (by simp)
      · rw [hfs]
        exact not_mem_cleanupFiles_listed hi (by simp)
      · rintro (h | h | ⟨c', sig', hh, hc'⟩)
        · simp at h
        · simp at h
        · simp only [List.head?_cons, Option.some.injEq, JobEvent.close.injEq] at hh
          exact absurd hh.1.symm hc'
      · intro sig' _
        refine ⟨?_, ?_, ?_⟩
        · rw [hfs]
          exact mem_cleanupFiles_unlisted (by simp [hoa, hoi])
        · rw [hdl]
          exact mapGet_mapSet_self m _ _
        · intro now hle
          rw [hfs, hdl]
          set idd := mkDownloadId env.tNow env.rand with hidd
          set v : DownloadInfo := { path := env.outPath, createdAt := env.tNow } with hv
          have hmem : (idd, v) ∈ mapSet m idd v :=
            mapGet_some_mem (mapGet_mapSet_self m idd v)
          have hnodup : ((mapSet m idd v).map Prod.fst).Nodup :=
            mapSet_nodupKeys hkeys idd v
          have hreg := sweep_fold_reg now (mapSet m idd v)
            (cleanupFiles fs [some env.audioPath, some env.imagePath]) (mapSet m idd v)
          rw [show sweep now (cleanupFiles fs [some env.audioPath, some env.imagePath])
                (mapSet m idd v)
              = (mapSet m idd v).foldl (sweepStep now)
                  (cleanupFiles fs [some env.audioPath, some env.imagePath],
                   mapSet m idd v) from rfl,
            hreg, List.mem_filter]
          refine ⟨hmem, ?_⟩
          have hany : (mapSet m idd v).any (fun x => expiredB now x && x.1 == idd)
              = false := by
            rw [List.any_eq_false]
            intro x hx
            simp only [Bool.and_eq_true, beq_iff_eq, not_and, expiredB,
              decide_eq_true_eq]
            intro hexp hkey
            have hx' : x = (idd, v) := key_unique hnodup hx hmem hkey
            rw [hx'] at hexp
            exact absurd hexp (not_lt.mpr hle)
          rw [hany]
          rfl
    · have hfs : (runJob env [.close c sig] (initState fs m)).fs
          = cleanupFiles (cleanupFiles fs [some env.audioPath, some env.imagePath])
              [some env.outPath] := by
        simp [runJob, jobStep, onClose, initState, headersSent, safeRespond, jobCleanup, hc]
      refine ⟨?_, ?_, ?_, ?_⟩
      · rw [hfs]
        exact not_mem_cleanupFiles_of_not_mem (not_mem_cleanupFiles_listed ha (by simp))
      · rw [hfs]
        exact not_mem_cleanupFiles_of_not_mem (not_mem_cleanupFiles_listed hi (by simp))
      · intro _
        rw [hfs]
        exact not_mem_cleanupFiles_listed ho (by simp)
      · intro sig' heq
        simp only [List.cons.injEq, JobEvent.close.injEq, and_true] at heq
        exact absurd heq.1 hc
  | errorOnly =>
    have hfs : (runJob env [.spawnError] (initState fs m)).fs
        = cleanupFiles fs [some env.audioPath, some env.imagePath, some env.outPath] := by
      simp [runJob, jobStep, onSpawnError, initState, headersSent, safeRespond, jobCleanup]
    refine ⟨?_, ?_, fun _ => ?_, ?_⟩
    · rw [hfs]
      exact not_mem_cleanupFiles_listed ha (by simp)
    · rw [hfs]
      exact not_mem_cleanupFiles_listed hi (by simp)
    · rw [hfs]
      exact not_mem_cleanupFiles_listed ho (by simp)
    · intro sig' heq
      simp at heq
  | timeoutOnly =>
    have hfs : (runJob env [.timeout] (initState fs m)).fs
        = cleanupFiles fs [some env.audioPath, some env.imagePath, some env.outPath] := by
      simp [runJob, jobStep, onTimeout, initState, headersSent, safeRespond, jobCleanup]
    refine ⟨?_, ?_, fun _ => ?_, ?_⟩
    · rw [hfs]
      exact not_mem_cleanupFiles_listed ha (by simp)
    · rw [hfs]
      exact not_mem_cleanupFiles_listed hi (by simp)
    · rw [hfs]
      exact not_mem_cleanupFiles_listed ho (by simp)
    · intro sig' heq
      simp at heq
  | timeoutClose c sig =>
    have hfs : (runJob env [.timeout, .close c sig] (initState fs m)).fs
        = cleanupFiles
            (cleanupFiles fs [some env.audioPath, some env.imagePath, some env.outPath])
            [some env.audioPath, some env.imagePath, some env.outPath] := by
      simp [runJob, jobStep, onTimeout, onClose, initState, headersSent, safeRespond,
        jobCleanup]
    refine ⟨?_, ?_, fun _ => ?_, ?_⟩
    · rw [hfs]
      exact not_mem_cleanupFiles_listed ha (by simp)
    · rw [hfs]
      exact not_mem_cleanupFiles_listed hi (by simp)
    · rw [hfs]
      exact not_mem_cleanupFiles_listed ho (by simp)
    · intro sig' heq
      simp at heq
  | errorClose c sig =>
    have hfs : (runJob env [.spawnError, .close c sig] (initState fs m)).fs
        = cleanupFiles
            (cleanupFiles fs [some env.audioPath, some env.imagePath, some env.outPath])
            [some env.audioPath, some env.imagePath, some env.outPath] := by
      simp [runJob, jobStep, onSpawnError, onClose, initState, headersSent, safeRespond,
        jobCleanup]
    refine ⟨?_, ?_, fun _ => ?_, ?_⟩
    · rw [hfs]
      exact not_mem_cleanupFiles_listed ha (by simp)
    · rw [hfs]
      exact not_mem_cleanupFiles_listed hi (by simp)
    · rw [hfs]
      exact not_mem_cleanupFiles_listed ho (by simp)
    · intro sig' heq
      simp at heq

theorem terminal_outcome_file_state_witness :
    cexEnv.audioPath ∉
      (runJob cexEnv [.timeout] (initState ["a.mp3", "i.jpg", "out.mp4"] [])).fs :=
  (terminal_outcome_file_state cexEnv ["a.mp3", "i.jpg", "out.mp4"] [] [.timeout]
    ValidTrace.timeoutOnly (by decide) (by decide) (by decide) (by decide)
    (by decide) (by decide)).1
